import Mathlib

/-!
Verification of the chunk / object-list / geometry core of src/src/cave.c
(Angband dungeon level representation).

The C code is shallowly embedded: the chunk struct becomes a Lean structure,
objects are identified by a numeric id (modelling pointer identity) carrying
their mutable oidx field, the growable object-pointer array becomes a
List (Option Nat) together with the stored obj_max capacity field, and the
stateful functions list_object / delist_object become pure functions returning
the updated state.  External collaborators (the RNG stream feeding rand_spread,
the square_in_bounds_fully / square_isknown / los / distance oracles, which are
defined outside the examined sources) are taken as parameters.
-/

namespace Angband

/-! ### Array primitives

Reading and writing a C pointer array is modelled on lists: reading out of
range yields none (the C code never reads out of range in well-formed states),
writing out of range is a no-op. -/

/-- Read slot i of an object-pointer array (c->objects[i]). -/
def nth : List (Option Nat) → Nat → Option Nat
  | [], _ => none
  | a :: _, 0 => a
  | _ :: t, n + 1 => nth t n

/-- Write slot i of an object-pointer array (c->objects[i] = v). -/
def setIdx : List (Option Nat) → Nat → Option Nat → List (Option Nat)
  | [], _, _ => []
  | _ :: t, 0, v => v :: t
  | a :: t, n + 1, v => a :: setIdx t n v

/-- Null out count consecutive slots starting at lo: the loops
for (i = lo; i < lo + count; i++) objects[i] = NULL. -/
def setNoneFrom : List (Option Nat) → Nat → Nat → List (Option Nat)
  | xs, _, 0 => xs
  | xs, lo, n + 1 => setNoneFrom (setIdx xs lo none) (lo + 1) n

/-- Model of mem_realloc on an object-pointer array: contents up to the new
size are preserved; cells beyond the old length are taken as none (in C they
are indeterminate, and list_object overwrites every such cell with NULL before
any read in a well-formed state). -/
def realloc (xs : List (Option Nat)) (n : Nat) : List (Option Nat) :=
  xs.take n ++ List.replicate (n - xs.length) none

/-! ### Direction tables (cave.c lines 59-81) -/

/-- Global array for looping through the keypad directions
(const s16b ddd[9]; its entries are the keypad digits 1..9, used as indices
into ddx / ddy, hence Nat here). -/
def ddd : List Nat := [2, 8, 6, 4, 3, 1, 9, 7, 5]

/-- Global array converting a keypad direction into an x offset
(const s16b ddx[10]). -/
def ddx : List Int := [0, -1, 0, 1, -1, 0, 1, -1, 0, 1]

/-- Global array converting a keypad direction into a y offset
(const s16b ddy[10]). -/
def ddy : List Int := [0, 1, 1, 1, 0, 0, 0, -1, -1, -1]

/-- Global array optimizing ddx[ddd[i]] (const s16b ddx_ddd[9]). -/
def ddx_ddd : List Int := [0, 0, 1, -1, 1, -1, 1, -1, 0]

/-- Global array optimizing ddy[ddd[i]] (const s16b ddy_ddd[9]). -/
def ddy_ddd : List Int := [1, -1, 0, 0, 1, 1, -1, -1, 0]

/-! ### The chunk structure and cave_new (cave.c lines 133-157)

Only the fields touched by the examined code are modelled; the squares grid,
trap and pile contents are owned by external collaborators and enter only
through the oracle parameters of scatter / count_feats. -/

/-- Modelled from the spec: OBJECT_LIST_SIZE is the fixed initial capacity of
the objects index, a constant of cave.h which is not among the examined
sources; the spec fixes only that it is a fixed initial capacity. -/
def OBJECT_LIST_SIZE : Nat := 128

/-- Modelled from the spec: OBJECT_LIST_INCR is the fixed growth increment of
the objects index, a constant of cave.h which is not among the examined
sources; the spec fixes only that growth is by a fixed increment. -/
def OBJECT_LIST_INCR : Nat := 32

/-- The chunk structure: one dungeon level.  objects holds the id of the
object listed in each slot (none = NULL); obj_max mirrors the C field. -/
structure chunk where
  height : Nat
  width : Nat
  objects : List (Option Nat)
  obj_max : Nat
  mon_max : Nat
  mon_cnt : Nat
  mon_current : Int
  created_at : Nat
  deriving Repr, DecidableEq

/-- An object, as far as the object-list manager sees it: its identity
(modelling the pointer) and its mutable oidx field. -/
structure object where
  id : Nat
  oidx : Nat
  deriving Repr, DecidableEq

/-- cave_new: allocate a new chunk of the world.  mem_zalloc zero-fills,
so mon_cnt (and every other unset numeric field) starts at 0; turn is the
current game time read from the game-world collaborator. -/
def cave_new (height width : Nat) (turn : Nat) : chunk :=
  { height := height
    width := width
    objects := List.replicate OBJECT_LIST_SIZE none
    obj_max := OBJECT_LIST_SIZE - 1
    mon_max := 1
    mon_cnt := 0
    mon_current := -1
    created_at := turn }

/-! ### The object list manager (cave.c lines 190-245)

list_object / delist_object read the globals cave (the active chunk) and
player->cave (the shadow known chunk).  The flag active models c == cave, and
kc models player->cave.  All three pieces of mutated state are returned. -/

/-- The duplicate scan of list_object:
for (i = 1; i < c->obj_max; i++) if (c->objects[i] == obj) return;
scanned here from index i with rem iterations left. -/
def dupScan (cobjs : List (Option Nat)) (oid : Nat) : Nat → Nat → Bool
  | _, 0 => false
  | i, rem + 1 => (nth cobjs i == some oid) || dupScan cobjs oid (i + 1) rem

/-- The hole scan of list_object: find the first slot i (i from, rem
iterations) that is not skipped (skip when active and the known chunk holds an
object at i) and is empty. -/
def holeScan (active : Bool) (cobjs kobjs : List (Option Nat)) :
    Nat → Nat → Option Nat
  | _, 0 => none
  | i, rem + 1 =>
    if active && (nth kobjs i).isSome then holeScan active cobjs kobjs (i + 1) rem
    else if nth cobjs i == none then some i
    else holeScan active cobjs kobjs (i + 1) rem

/-- list_object: enter an object in the list of objects for the chunk.
Robust against listing of duplicates or non-objects.  active models c == cave
and kc models player->cave.  Returns (c, kc, obj) after the call. -/
def list_object (active : Bool) (c kc : chunk) (obj : Option object) :
    chunk × chunk × Option object :=
  match obj with
  | none => (c, kc, none)
  | some o =>
    if dupScan c.objects o.id 1 (c.obj_max - 1) then (c, kc, some o)
    else
      match holeScan active c.objects kc.objects 1 (c.obj_max - 1) with
      | some i =>
        ({ c with objects := setIdx c.objects i (some o.id) }, kc,
         some { o with oidx := i })
      | none =>
        let m := c.obj_max
        let newlen := m + OBJECT_LIST_INCR + 1
        let c2 : chunk := { c with
          objects := setNoneFrom (setIdx (realloc c.objects newlen) m (some o.id))
            (m + 1) OBJECT_LIST_INCR
          obj_max := m + OBJECT_LIST_INCR }
        if active then
          let kobjs := setNoneFrom (realloc kc.objects newlen) kc.obj_max
            (c2.obj_max + 1 - kc.obj_max)
          (c2, { kc with objects := kobjs, obj_max := c2.obj_max },
           some { o with oidx := m })
        else
          (c2, kc, some { o with oidx := m })

/-- delist_object: remove an object from the list of objects for the chunk.
Robust against delisting of unlisted objects.  The assert on
c->objects[obj->oidx] == obj is a fatal integrity check, modelled as none. -/
def delist_object (active : Bool) (c kc : chunk) (o : object) :
    Option (chunk × object) :=
  if o.oidx = 0 then some (c, o)
  else if nth c.objects o.oidx ≠ some o.id then none
  else if active && (nth kc.objects o.oidx).isSome then some (c, o)
  else some ({ c with objects := setIdx c.objects o.oidx none },
             { o with oidx := 0 })

/-! ### Well-formedness

Invariants established by cave_new and preserved by the list manager, and
asserted by object_lists_check_integrity: the array has obj_max + 1 cells,
the top cell (never reached by the scans, filled only transiently during
growth) is empty, and a known object always has a real counterpart at the
same index with matching capacities. -/

/-- Basic shape invariant of a chunk's object index. -/
def chunk_wf (c : chunk) : Prop :=
  c.objects.length = c.obj_max + 1 ∧ 1 ≤ c.obj_max ∧ nth c.objects c.obj_max = none

/-- Invariant tying the shadow known chunk to the active chunk
(object_lists_check_integrity: capacities match, known implies real). -/
def known_wf (active : Bool) (c kc : chunk) : Prop :=
  active = true →
    kc.objects.length = kc.obj_max + 1 ∧ kc.obj_max = c.obj_max ∧
    ∀ i, i < kc.objects.length → (nth kc.objects i).isSome →
      (nth c.objects i).isSome

instance : DecidablePred chunk_wf := fun c => by
  unfold chunk_wf; infer_instance

instance (active : Bool) (c kc : chunk) : Decidable (known_wf active c kc) := by
  unfold known_wf; infer_instance

/-- A slot is free for placement: empty in the real chunk and, on the active
chunk, not holding a known object in the shadow chunk. -/
def freeSlot (active : Bool) (c kc : chunk) (i : Nat) : Prop :=
  nth c.objects i = none ∧ (active = true → nth kc.objects i = none)

instance (active : Bool) (c kc : chunk) : DecidablePred (freeSlot active c kc) :=
  fun i => by unfold freeSlot; infer_instance

/-! ### Lemmas about the array primitives -/

theorem nth_ge_length : ∀ (xs : List (Option Nat)) (i : Nat),
    xs.length ≤ i → nth xs i = none := by
  intro xs
  induction xs with
  | nil => intro i _; rfl
  | cons a t ih =>
    intro i hi
    cases i with
    | zero => simp at hi
    | succ n => exact ih n (by simpa using hi)

theorem length_setIdx : ∀ (xs : List (Option Nat)) (i : Nat) (v : Option Nat),
    (setIdx xs i v).length = xs.length := by
  intro xs
  induction xs with
  | nil => intro i v; rfl
  | cons a t ih =>
    intro i v
    cases i with
    | zero => rfl
    | succ n => simpa [setIdx] using ih n v

theorem nth_setIdx_self : ∀ (xs : List (Option Nat)) (i : Nat) (v : Option Nat),
    i < xs.length → nth (setIdx xs i v) i = v := by
  intro xs
  induction xs with
  | nil => intro i v h; simp at h
  | cons a t ih =>
    intro i v h
    cases i with
    | zero => rfl
    | succ n => exact ih n v (by simpa using h)

theorem nth_setIdx_ne : ∀ (xs : List (Option Nat)) (i j : Nat) (v : Option Nat),
    i ≠ j → nth (setIdx xs i v) j = nth xs j := by
  intro xs
  induction xs with
  | nil => intro i j v _; rfl
  | cons a t ih =>
    intro i j v hij
    cases i with
    | zero =>
      cases j with
      | zero => exact absurd rfl hij
      | succ m => rfl
    | succ n =>
      cases j with
      | zero => rfl
      | succ m => exact ih n m v (fun h => hij (by omega))

theorem setIdx_ge_length : ∀ (xs : List (Option Nat)) (i : Nat) (v : Option Nat),
    xs.length ≤ i → setIdx xs i v = xs := by
  intro xs
  induction xs with
  | nil => intro i v _; rfl
  | cons a t ih =>
    intro i v h
    cases i with
    | zero => simp at h
    | succ n => simpa [setIdx] using ih n v (by simpa using h)

theorem length_realloc (xs : List (Option Nat)) (n : Nat) :
    (realloc xs n).length = n := by
  simp [realloc]
  omega

theorem nth_realloc_lt : ∀ (xs : List (Option Nat)) (n i : Nat),
    i < xs.length → i < n → nth (realloc xs n) i = nth xs i := by
  intro xs
  induction xs with
  | nil => intro n i h; simp at h
  | cons a t ih =>
    intro n i hlen hn
    cases n with
    | zero => omega
    | succ m =>
      cases i with
      | zero => rfl
      | succ k =>
        have := ih m k (by simpa using hlen) (by omega)
        simpa [realloc, nth] using this

theorem nth_replicate (n i : Nat) :
    nth (List.replicate n (none : Option Nat)) i = none := by
  induction n generalizing i with
  | zero => rfl
  | succ m ih =>
    cases i with
    | zero => rfl
    | succ k => simpa [List.replicate_succ, nth] using ih k

theorem nth_realloc_ge (xs : List (Option Nat)) (n i : Nat)
    (h : xs.length ≤ i) : nth (realloc xs n) i = none := by
  induction xs generalizing n i with
  | nil => simpa [realloc] using nth_replicate n i
  | cons a t ih =>
    cases n with
    | zero => exact nth_ge_length _ _ (by rw [length_realloc]; omega)
    | succ m =>
      cases i with
      | zero => simp at h
      | succ k =>
        have := ih m k (by simpa using h)
        simpa [realloc, nth] using this

theorem length_setNoneFrom : ∀ (n : Nat) (xs : List (Option Nat)) (lo : Nat),
    (setNoneFrom xs lo n).length = xs.length := by
  intro n
  induction n with
  | zero => intro xs lo; rfl
  | succ m ih =>
    intro xs lo
    show (setNoneFrom (setIdx xs lo none) (lo + 1) m).length = xs.length
    rw [ih, length_setIdx]

theorem nth_setNoneFrom : ∀ (n : Nat) (xs : List (Option Nat)) (lo j : Nat),
    nth (setNoneFrom xs lo n) j =
      if lo ≤ j ∧ j < lo + n then none else nth xs j := by
  intro n
  induction n with
  | zero =>
    intro xs lo j
    show nth xs j = _
    rw [if_neg (by omega)]
  | succ m ih =>
    intro xs lo j
    show nth (setNoneFrom (setIdx xs lo none) (lo + 1) m) j = _
    rw [ih]
    by_cases hj : j = lo
    · rw [if_neg (by omega), if_pos (by omega), hj]
      by_cases hl : lo < xs.length
      · exact nth_setIdx_self xs lo none hl
      · rw [setIdx_ge_length xs lo none (by omega)]
        exact nth_ge_length xs lo (by omega)
    · rw [nth_setIdx_ne xs lo j none (fun h => hj h.symm)]
      by_cases hc : lo + 1 ≤ j ∧ j < lo + 1 + m
      · rw [if_pos hc, if_pos (by omega)]
      · rw [if_neg hc, if_neg (by omega)]

/-! ### Specifications of the two scans of list_object -/

/-- The acceptance condition of the hole scan on raw arrays: the slot is
empty and, on the active chunk, not occupied in the known chunk. -/
def scanFree (active : Bool) (cobjs kobjs : List (Option Nat)) (i : Nat) : Prop :=
  nth cobjs i = none ∧ (active = true → nth kobjs i = none)

theorem freeSlot_eq_scanFree (active : Bool) (c kc : chunk) (i : Nat) :
    freeSlot active c kc i = scanFree active c.objects kc.objects i := rfl

theorem dupScan_iff (cobjs : List (Option Nat)) (oid : Nat) :
    ∀ (rem i : Nat), dupScan cobjs oid i rem = true ↔
      ∃ j, i ≤ j ∧ j < i + rem ∧ nth cobjs j = some oid := by
  intro rem
  induction rem with
  | zero =>
    intro i
    simp only [dupScan]
    constructor
    · intro h; cases h
    · rintro ⟨j, h1, h2, _⟩; omega
  | succ m ih =>
    intro i
    simp only [dupScan, Bool.or_eq_true, beq_iff_eq, ih]
    constructor
    · rintro (h | ⟨j, h1, h2, h3⟩)
      · exact ⟨i, Nat.le_refl _, by omega, h⟩
      · exact ⟨j, by omega, by omega, h3⟩
    · rintro ⟨j, h1, h2, h3⟩
      by_cases hij : j = i
      · left; rw [← hij]; exact h3
      · right; exact ⟨j, by omega, by omega, h3⟩

theorem not_scanFree_of_skip (active : Bool) (cobjs kobjs : List (Option Nat))
    (i : Nat) (h : (active && (nth kobjs i).isSome) = true) :
    ¬scanFree active cobjs kobjs i := by
  rintro ⟨_, hk⟩
  rw [Bool.and_eq_true] at h
  rw [hk h.1] at h
  cases h.2

theorem scanFree_of_pass (active : Bool) (cobjs kobjs : List (Option Nat))
    (i : Nat) (h1 : ¬((active && (nth kobjs i).isSome) = true))
    (h2 : nth cobjs i = none) : scanFree active cobjs kobjs i := by
  refine ⟨h2, fun ha => ?_⟩
  cases hnk : nth kobjs i with
  | none => rfl
  | some v => exact absurd (by rw [ha, hnk]; rfl) h1

theorem not_scanFree_of_occupied (active : Bool) (cobjs kobjs : List (Option Nat))
    (i : Nat) (h2 : ¬(nth cobjs i = none)) :
    ¬scanFree active cobjs kobjs i := by
  rintro ⟨hc, _⟩
  exact h2 hc

theorem holeScan_eq_none_iff (active : Bool) (cobjs kobjs : List (Option Nat)) :
    ∀ (rem i : Nat), holeScan active cobjs kobjs i rem = none ↔
      ∀ j, i ≤ j → j < i + rem → ¬scanFree active cobjs kobjs j := by
  intro rem
  induction rem with
  | zero =>
    intro i
    simp only [holeScan]
    constructor
    · intro _ j _ h2 _; omega
    · intro _; trivial
  | succ m ih =>
    intro i
    by_cases h1 : (active && (nth kobjs i).isSome) = true
    · have hstep : holeScan active cobjs kobjs i (m + 1) =
          holeScan active cobjs kobjs (i + 1) m := by
        simp [holeScan, h1]
      rw [hstep, ih]
      constructor
      · intro h j hj1 hj2
        by_cases hji : j = i
        · rw [hji]; exact not_scanFree_of_skip active cobjs kobjs i h1
        · exact h j (by omega) (by omega)
      · intro h j hj1 hj2
        exact h j (by omega) (by omega)
    · by_cases h2 : nth cobjs i = none
      · have hstep : holeScan active cobjs kobjs i (m + 1) = some i := by
          simp [holeScan, h1, h2]
        rw [hstep]
        constructor
        · intro hcontra; cases hcontra
        · intro h
          exact absurd (scanFree_of_pass active cobjs kobjs i h1 h2)
            (h i (Nat.le_refl _) (by omega))
      · have hstep : holeScan active cobjs kobjs i (m + 1) =
            holeScan active cobjs kobjs (i + 1) m := by
          simp [holeScan, h1, h2]
        rw [hstep, ih]
        constructor
        · intro h j hj1 hj2
          by_cases hji : j = i
          · rw [hji]; exact not_scanFree_of_occupied active cobjs kobjs i h2
          · exact h j (by omega) (by omega)
        · intro h j hj1 hj2
          exact h j (by omega) (by omega)

theorem holeScan_eq_some (active : Bool) (cobjs kobjs : List (Option Nat)) :
    ∀ (rem i j : Nat), holeScan active cobjs kobjs i rem = some j →
      i ≤ j ∧ j < i + rem ∧ scanFree active cobjs kobjs j ∧
        ∀ k, i ≤ k → k < j → ¬scanFree active cobjs kobjs k := by
  intro rem
  induction rem with
  | zero => intro i j h; cases h
  | succ m ih =>
    intro i j h
    by_cases h1 : (active && (nth kobjs i).isSome) = true
    · have hstep : holeScan active cobjs kobjs i (m + 1) =
          holeScan active cobjs kobjs (i + 1) m := by
        simp [holeScan, h1]
      rw [hstep] at h
      obtain ⟨ha, hb, hc, hd⟩ := ih (i + 1) j h
      refine ⟨by omega, by omega, hc, fun k hk1 hk2 => ?_⟩
      by_cases hki : k = i
      · rw [hki]; exact not_scanFree_of_skip active cobjs kobjs i h1
      · exact hd k (by omega) hk2
    · by_cases h2 : nth cobjs i = none
      · have hstep : holeScan active cobjs kobjs i (m + 1) = some i := by
          simp [holeScan, h1, h2]
        rw [hstep] at h
        obtain rfl : i = j := by cases h; rfl
        refine ⟨Nat.le_refl _, by omega,
          scanFree_of_pass active cobjs kobjs i h1 h2, fun k hk1 hk2 => ?_⟩
        omega
      · have hstep : holeScan active cobjs kobjs i (m + 1) =
            holeScan active cobjs kobjs (i + 1) m := by
          simp [holeScan, h1, h2]
        rw [hstep] at h
        obtain ⟨ha, hb, hc, hd⟩ := ih (i + 1) j h
        refine ⟨by omega, by omega, hc, fun k hk1 hk2 => ?_⟩
        by_cases hki : k = i
        · rw [hki]; exact not_scanFree_of_occupied active cobjs kobjs i h2
        · exact hd k (by omega) hk2

/-! ### Claim theorems: direction tables, cave_new, delist_object -/

/-- C10: the precomputed direction-delta tables are consistent with the
priority ordering: for every i in 0..8, ddx_ddd[i] = ddx[ddd[i]] and
ddy_ddd[i] = ddy[ddd[i]], and the last entry of the ordering (index 8,
direction 5) is the zero delta denoting the player's own cell. -/
theorem ddd_tables_consistent :
    (∀ i, i < 9 →
      ddx_ddd.getD i 0 = ddx.getD (ddd.getD i 0) 0 ∧
      ddy_ddd.getD i 0 = ddy.getD (ddd.getD i 0) 0) ∧
    ddd.getD 8 0 = 5 ∧ ddx.getD 5 0 = 0 ∧ ddy.getD 5 0 = 0 := by
  refine ⟨?_, rfl, rfl, rfl⟩
  decide

theorem ddd_tables_consistent_witness :
    0 < 9 ∧
      (ddx_ddd.getD 0 0 = ddx.getD (ddd.getD 0 0) 0 ∧
       ddy_ddd.getD 0 0 = ddy.getD (ddd.getD 0 0) 0) :=
  ⟨by decide, ddd_tables_consistent.1 0 (by decide)⟩

/-- C6: for every height h > 0 and width w > 0, cave_new h w turn returns a
chunk with height h, width w, mon_max = 1, mon_cnt = 0, created_at equal to
the current game time, and obj_max equal to the fixed initial capacity of the
objects index (OBJECT_LIST_SIZE cells are allocated, index 0 reserved, so the
stored capacity is OBJECT_LIST_SIZE - 1). -/
theorem cave_new_fields (h w turn : Nat) (_hh : 0 < h) (_hw : 0 < w) :
    (cave_new h w turn).height = h ∧ (cave_new h w turn).width = w ∧
    (cave_new h w turn).mon_max = 1 ∧ (cave_new h w turn).mon_cnt = 0 ∧
    (cave_new h w turn).created_at = turn ∧
    (cave_new h w turn).obj_max = OBJECT_LIST_SIZE - 1 ∧
    (cave_new h w turn).objects.length = OBJECT_LIST_SIZE :=
  ⟨rfl, rfl, rfl, rfl, rfl, rfl, by simp [cave_new]⟩

theorem cave_new_fields_witness :
    0 < 10 ∧
      ((cave_new 10 10 7).height = 10 ∧ (cave_new 10 10 7).width = 10 ∧
       (cave_new 10 10 7).mon_max = 1 ∧ (cave_new 10 10 7).mon_cnt = 0 ∧
       (cave_new 10 10 7).created_at = 7 ∧
       (cave_new 10 10 7).obj_max = OBJECT_LIST_SIZE - 1 ∧
       (cave_new 10 10 7).objects.length = OBJECT_LIST_SIZE) :=
  ⟨by decide, cave_new_fields 10 10 7 (by decide) (by decide)⟩

/-- C2: for every listed object o (o.oidx ≠ 0 and c.objects[o.oidx] == o),
if c is the active chunk and the shadow known chunk holds an object at index
o.oidx, then delist_object changes nothing: the chunk and the object are
returned exactly as they were. -/
theorem delist_object_noop_when_known (c kc : chunk) (o : object)
    (h1 : o.oidx ≠ 0) (h2 : nth c.objects o.oidx = some o.id)
    (h3 : (nth kc.objects o.oidx).isSome = true) :
    delist_object true c kc o = some (c, o) := by
  unfold delist_object
  rw [if_neg h1, if_neg (fun hcon => hcon h2), if_pos (by simp [h3])]

/-- C4: delist_object on an unlisted object (oidx = 0) changes nothing; on
success (listed, matching slot, no known-object blocking) it zeroes oidx and
empties the slot; and a listed object whose slot does not hold it trips the
fatal integrity assert (modelled: the result is none, not a recovery). -/
theorem delist_object_spec (active : Bool) (c kc : chunk) (o : object) :
    (o.oidx = 0 → delist_object active c kc o = some (c, o)) ∧
    (o.oidx ≠ 0 → nth c.objects o.oidx = some o.id →
      ¬(active = true ∧ (nth kc.objects o.oidx).isSome = true) →
      ∃ c2 o2, delist_object active c kc o = some (c2, o2) ∧
        o2.oidx = 0 ∧ o2.id = o.id ∧ nth c2.objects o.oidx = none) ∧
    (o.oidx ≠ 0 → nth c.objects o.oidx ≠ some o.id →
      delist_object active c kc o = none) := by
  refine ⟨fun h0 => ?_, fun h1 h2 h3 => ?_, fun h1 h2 => ?_⟩
  · unfold delist_object
    rw [if_pos h0]
  · have hblock : ¬((active && (nth kc.objects o.oidx).isSome) = true) := by
      rw [Bool.and_eq_true]
      intro hcon
      exact h3 ⟨hcon.1, hcon.2⟩
    refine ⟨{ c with objects := setIdx c.objects o.oidx none },
      { o with oidx := 0 }, ?_, rfl, rfl, ?_⟩
    · unfold delist_object
      rw [if_neg h1, if_neg (fun hcon => hcon h2), if_neg hblock]
    · by_cases hl : o.oidx < c.objects.length
      · exact nth_setIdx_self c.objects o.oidx none hl
      · rw [setIdx_ge_length c.objects o.oidx none (by omega)]
        exact nth_ge_length c.objects o.oidx (by omega)
  · unfold delist_object
    rw [if_neg h1, if_pos h2]

/-- A small concrete chunk used by the witnesses: slot 1 holds object 7,
slot 2 is empty, top slot empty. -/
def wchunk : chunk :=
  { height := 2, width := 2, objects := [none, some 7, none, none],
    obj_max := 3, mon_max := 1, mon_cnt := 0, mon_current := -1,
    created_at := 0 }

/-- An empty variant of the witness chunk. -/
def wchunk0 : chunk :=
  { wchunk with objects := [none, none, none, none] }

theorem delist_object_noop_when_known_witness :
    ((⟨7, 1⟩ : object).oidx ≠ 0 ∧
     nth wchunk.objects (⟨7, 1⟩ : object).oidx = some 7 ∧
     (nth wchunk.objects (⟨7, 1⟩ : object).oidx).isSome = true) ∧
    delist_object true wchunk wchunk ⟨7, 1⟩ = some (wchunk, ⟨7, 1⟩) :=
  ⟨⟨by decide, by decide, by decide⟩,
   delist_object_noop_when_known wchunk wchunk ⟨7, 1⟩ (by decide) (by decide)
     (by decide)⟩

theorem delist_object_spec_witness :
    ((⟨7, 1⟩ : object).oidx ≠ 0 ∧
     nth wchunk.objects (⟨7, 1⟩ : object).oidx = some 7 ∧
     ¬((false : Bool) = true ∧
       (nth wchunk0.objects (⟨7, 1⟩ : object).oidx).isSome = true)) ∧
    (∃ c2 o2, delist_object false wchunk wchunk0 ⟨7, 1⟩ = some (c2, o2) ∧
      o2.oidx = 0 ∧ o2.id = (⟨7, 1⟩ : object).id ∧ nth c2.objects 1 = none) :=
  ⟨⟨by decide, by decide, by decide⟩,
   (delist_object_spec false wchunk wchunk0 ⟨7, 1⟩).2.1 (by decide) (by decide)
     (by decide)⟩

/-! ### Result shapes of list_object -/

theorem OBJECT_LIST_INCR_pos : 0 < OBJECT_LIST_INCR := by decide

theorem list_object_none (active : Bool) (c kc : chunk) :
    list_object active c kc none = (c, kc, none) := rfl

theorem list_object_dup (active : Bool) (c kc : chunk) (o : object)
    (hdup : dupScan c.objects o.id 1 (c.obj_max - 1) = true) :
    list_object active c kc (some o) = (c, kc, some o) := by
  simp [list_object, hdup]

theorem list_object_hole (active : Bool) (c kc : chunk) (o : object) (i : Nat)
    (hdup : dupScan c.objects o.id 1 (c.obj_max - 1) = false)
    (hhole : holeScan active c.objects kc.objects 1 (c.obj_max - 1) = some i) :
    list_object active c kc (some o) =
      ({ c with objects := setIdx c.objects i (some o.id) }, kc,
       some { o with oidx := i }) := by
  simp [list_object, hdup, hhole]

/-- The chunk after the growth path of list_object: realloc to
obj_max + OBJECT_LIST_INCR + 1 cells, place the object at the old obj_max,
null the added cells, bump obj_max. -/
def grownChunk (c : chunk) (oid : Nat) : chunk :=
  { c with
    objects := setNoneFrom
      (setIdx (realloc c.objects (c.obj_max + OBJECT_LIST_INCR + 1))
        c.obj_max (some oid))
      (c.obj_max + 1) OBJECT_LIST_INCR
    obj_max := c.obj_max + OBJECT_LIST_INCR }

/-- The shadow known chunk after the lockstep growth of list_object on the
active chunk: realloc to the same size, null from the old known obj_max
through the new obj_max, set obj_max equal to the active chunk's. -/
def grownKnown (c kc : chunk) : chunk :=
  { kc with
    objects := setNoneFrom (realloc kc.objects (c.obj_max + OBJECT_LIST_INCR + 1))
      kc.obj_max (c.obj_max + OBJECT_LIST_INCR + 1 - kc.obj_max)
    obj_max := c.obj_max + OBJECT_LIST_INCR }

theorem grownChunk_objects (c : chunk) (oid : Nat) :
    (grownChunk c oid).objects =
      setNoneFrom
        (setIdx (realloc c.objects (c.obj_max + OBJECT_LIST_INCR + 1))
          c.obj_max (some oid))
        (c.obj_max + 1) OBJECT_LIST_INCR := by
  simp only [grownChunk]

theorem grownChunk_obj_max (c : chunk) (oid : Nat) :
    (grownChunk c oid).obj_max = c.obj_max + OBJECT_LIST_INCR := by
  simp only [grownChunk]

theorem grownKnown_objects (c kc : chunk) :
    (grownKnown c kc).objects =
      setNoneFrom (realloc kc.objects (c.obj_max + OBJECT_LIST_INCR + 1))
        kc.obj_max (c.obj_max + OBJECT_LIST_INCR + 1 - kc.obj_max) := by
  simp only [grownKnown]

theorem grownKnown_obj_max (c kc : chunk) :
    (grownKnown c kc).obj_max = c.obj_max + OBJECT_LIST_INCR := by
  simp only [grownKnown]

theorem list_object_growth_nonactive (c kc : chunk) (o : object)
    (hdup : dupScan c.objects o.id 1 (c.obj_max - 1) = false)
    (hhole : holeScan false c.objects kc.objects 1 (c.obj_max - 1) = none) :
    list_object false c kc (some o) =
      (grownChunk c o.id, kc, some { o with oidx := c.obj_max }) := by
  simp [list_object, hdup, hhole, grownChunk]

theorem list_object_growth_active (c kc : chunk) (o : object)
    (hdup : dupScan c.objects o.id 1 (c.obj_max - 1) = false)
    (hhole : holeScan true c.objects kc.objects 1 (c.obj_max - 1) = none) :
    list_object true c kc (some o) =
      (grownChunk c o.id, grownKnown c kc, some { o with oidx := c.obj_max }) := by
  simp [list_object, hdup, hhole, grownChunk, grownKnown]

/-- The slot written by the growth path still holds the object after the new
cells are nulled. -/
theorem nth_growth_slot (xs : List (Option Nat)) (m k : Nat) (v : Option Nat) :
    nth (setNoneFrom (setIdx (realloc xs (m + k + 1)) m v) (m + 1) k) m = v := by
  rw [nth_setNoneFrom, if_neg (by omega)]
  exact nth_setIdx_self _ _ _ (by rw [length_realloc]; omega)

/-! ### Claim theorem: idempotence of list_object -/

/-- C5: for every chunk c and every object o (including o null), calling
list_object twice in a row leaves the chunk pair and the object exactly as
after the first call: the second call is a no-op because the object is found
by the duplicate scan (or is null). -/
theorem list_object_idempotent (active : Bool) (c kc : chunk)
    (obj : Option object) (hwf : chunk_wf c) :
    list_object active (list_object active c kc obj).1
      (list_object active c kc obj).2.1 (list_object active c kc obj).2.2 =
      list_object active c kc obj := by
  obtain ⟨hlen, hmax, _⟩ := hwf
  match obj with
  | none => rfl
  | some o =>
    by_cases hdup : dupScan c.objects o.id 1 (c.obj_max - 1) = true
    · rw [list_object_dup active c kc o hdup]
      exact list_object_dup active c kc o hdup
    · rw [Bool.not_eq_true] at hdup
      cases hhole : holeScan active c.objects kc.objects 1 (c.obj_max - 1) with
      | some i =>
        obtain ⟨hi1, hi2, _, _⟩ :=
          holeScan_eq_some active c.objects kc.objects _ _ _ hhole
        have hilen : i < (setIdx c.objects i (some o.id)).length := by
          rw [length_setIdx]; omega
        have hdup2 : dupScan (setIdx c.objects i (some o.id)) o.id 1
            (c.obj_max - 1) = true := by
          rw [dupScan_iff]
          exact ⟨i, hi1, hi2, nth_setIdx_self _ _ _ (by rw [length_setIdx] at hilen; exact hilen)⟩
        rw [list_object_hole active c kc o i hdup hhole]
        exact list_object_dup active _ kc { o with oidx := i } hdup2
      | none =>
        have hincr := OBJECT_LIST_INCR_pos
        have hslot : nth (grownChunk c o.id).objects c.obj_max = some o.id := by
          rw [grownChunk_objects]
          exact nth_growth_slot c.objects c.obj_max OBJECT_LIST_INCR (some o.id)
        have hdup2 : dupScan (grownChunk c o.id).objects o.id 1
            ((grownChunk c o.id).obj_max - 1) = true := by
          rw [grownChunk_obj_max, dupScan_iff]
          exact ⟨c.obj_max, hmax, by omega, hslot⟩
        cases active with
        | false =>
          rw [list_object_growth_nonactive c kc o hdup hhole]
          exact list_object_dup false (grownChunk c o.id) kc
            { o with oidx := c.obj_max } hdup2
        | true =>
          rw [list_object_growth_active c kc o hdup hhole]
          exact list_object_dup true (grownChunk c o.id) (grownKnown c kc)
            { o with oidx := c.obj_max } hdup2

theorem list_object_idempotent_witness :
    chunk_wf wchunk0 ∧
      list_object false (list_object false wchunk0 wchunk0 (some ⟨5, 0⟩)).1
        (list_object false wchunk0 wchunk0 (some ⟨5, 0⟩)).2.1
        (list_object false wchunk0 wchunk0 (some ⟨5, 0⟩)).2.2 =
        list_object false wchunk0 wchunk0 (some ⟨5, 0⟩) :=
  ⟨by decide, list_object_idempotent false wchunk0 wchunk0 (some ⟨5, 0⟩)
    (by decide)⟩

/-! ### Claim theorem: placement policy of list_object -/

/-- C1: for every chunk and every non-null object not already present in the
index, list_object stores the object at the first index i ≥ 1 whose slot is
empty — skipping, on the active chunk, every index at which the shadow known
chunk holds an object — and sets oidx = i, so that afterwards the slot at
oidx holds the object and oidx ≠ 0.  In particular (second conjunct), on a
non-active 10×10 chunk, after listing three objects and delisting the second,
listing a fresh object reuses the freed slot (index 2) without growing the
index. -/
theorem list_object_first_free :
    (∀ (active : Bool) (c kc : chunk) (o : object),
      chunk_wf c → known_wf active c kc →
      (∀ j, j < c.objects.length → nth c.objects j ≠ some o.id) →
      ∃ i, 1 ≤ i ∧ freeSlot active c kc i ∧
        (∀ j, 1 ≤ j → j < i → ¬freeSlot active c kc j) ∧
        (list_object active c kc (some o)).2.2 = some { o with oidx := i } ∧
        nth (list_object active c kc (some o)).1.objects i = some o.id) ∧
    (let c0 := cave_new 10 10 0
     let s1 := list_object false c0 c0 (some ⟨1, 0⟩)
     let s2 := list_object false s1.1 c0 (some ⟨2, 0⟩)
     let s3 := list_object false s2.1 c0 (some ⟨3, 0⟩)
     s2.2.2 = some ⟨2, 2⟩ ∧
     (delist_object false s3.1 c0 ⟨2, 2⟩).map
         (fun p => (list_object false p.1 c0 (some ⟨4, 0⟩)).2.2) =
       some (some ⟨4, 2⟩) ∧
     (delist_object false s3.1 c0 ⟨2, 2⟩).map
         (fun p => (list_object false p.1 c0 (some ⟨4, 0⟩)).1.obj_max) =
       some s3.1.obj_max) := by
  constructor
  · intro active c kc o hwf hkwf habs
    obtain ⟨hlen, hmax, htop⟩ := hwf
    have hdup : dupScan c.objects o.id 1 (c.obj_max - 1) = false := by
      by_contra hcon
      rw [Bool.not_eq_false] at hcon
      obtain ⟨j, _, hj2, hjeq⟩ := (dupScan_iff _ _ _ _).mp hcon
      exact habs j (by omega) hjeq
    cases hhole : holeScan active c.objects kc.objects 1 (c.obj_max - 1) with
    | some i =>
      obtain ⟨hi1, hi2, hfree, hmin⟩ :=
        holeScan_eq_some active c.objects kc.objects _ _ _ hhole
      refine ⟨i, hi1, hfree, fun j hj1 hj2 => hmin j hj1 hj2, ?_, ?_⟩
      · rw [list_object_hole active c kc o i hdup hhole]
      · rw [list_object_hole active c kc o i hdup hhole]
        exact nth_setIdx_self _ _ _ (by omega)
    | none =>
      have hincr := OBJECT_LIST_INCR_pos
      have hnone := (holeScan_eq_none_iff active c.objects kc.objects _ _).mp hhole
      refine ⟨c.obj_max, hmax, ⟨htop, fun ha => ?_⟩,
        fun j hj1 hj2 => hnone j hj1 (by omega), ?_, ?_⟩
      · obtain ⟨hklen, hkmax, hsub⟩ := hkwf ha
        by_contra hk
        have hks : (nth kc.objects c.obj_max).isSome = true := by
          cases hnth : nth kc.objects c.obj_max with
          | none => exact absurd hnth hk
          | some v => rfl
        have hcs := hsub c.obj_max (by omega) hks
        rw [htop] at hcs
        cases hcs
      · cases active with
        | false => rw [list_object_growth_nonactive c kc o hdup hhole]
        | true => rw [list_object_growth_active c kc o hdup hhole]
      · cases active with
        | false =>
          rw [list_object_growth_nonactive c kc o hdup hhole]
          show nth (grownChunk c o.id).objects c.obj_max = some o.id
          rw [grownChunk_objects]
          exact nth_growth_slot c.objects c.obj_max OBJECT_LIST_INCR (some o.id)
        | true =>
          rw [list_object_growth_active c kc o hdup hhole]
          show nth (grownChunk c o.id).objects c.obj_max = some o.id
          rw [grownChunk_objects]
          exact nth_growth_slot c.objects c.obj_max OBJECT_LIST_INCR (some o.id)
  · decide

theorem list_object_first_free_witness :
    (chunk_wf wchunk0 ∧ known_wf false wchunk0 wchunk0 ∧
      (∀ j, j < wchunk0.objects.length → nth wchunk0.objects j ≠ some 9)) ∧
    (∃ i, 1 ≤ i ∧ freeSlot false wchunk0 wchunk0 i ∧
      (∀ j, 1 ≤ j → j < i → ¬freeSlot false wchunk0 wchunk0 j) ∧
      (list_object false wchunk0 wchunk0 (some ⟨9, 0⟩)).2.2 =
        some { object.mk 9 0 with oidx := i } ∧
      nth (list_object false wchunk0 wchunk0 (some ⟨9, 0⟩)).1.objects i =
        some 9) :=
  ⟨⟨by decide, by decide, by decide⟩,
   list_object_first_free.1 false wchunk0 wchunk0 ⟨9, 0⟩ (by decide) (by decide)
     (by decide)⟩

/-! ### Claim theorem: lockstep growth of the known index -/

/-- C3: whenever list_object on the active chunk grows the object index (the
duplicate scan failed and no free slot was available), the shadow known
chunk's capacity afterwards is ≥ the active chunk's new capacity, and every
slot newly added to either index is empty. -/
theorem list_object_growth_lockstep (c kc : chunk) (o : object)
    (hwf : chunk_wf c) (hkwf : known_wf true c kc)
    (hdup : dupScan c.objects o.id 1 (c.obj_max - 1) = false)
    (hhole : holeScan true c.objects kc.objects 1 (c.obj_max - 1) = none) :
    (list_object true c kc (some o)).1.obj_max = c.obj_max + OBJECT_LIST_INCR ∧
    (list_object true c kc (some o)).2.1.obj_max ≥
      (list_object true c kc (some o)).1.obj_max ∧
    (∀ j, c.obj_max < j → j ≤ c.obj_max + OBJECT_LIST_INCR →
      nth (list_object true c kc (some o)).1.objects j = none) ∧
    (∀ j, kc.obj_max < j → j ≤ c.obj_max + OBJECT_LIST_INCR →
      nth (list_object true c kc (some o)).2.1.objects j = none) := by
  obtain ⟨hklen, hkmax, _⟩ := hkwf rfl
  obtain ⟨hlen, hmax, _⟩ := hwf
  rw [list_object_growth_active c kc o hdup hhole]
  refine ⟨?_, ?_, ?_, ?_⟩
  · show (grownChunk c o.id).obj_max = c.obj_max + OBJECT_LIST_INCR
    exact grownChunk_obj_max c o.id
  · show (grownKnown c kc).obj_max ≥ (grownChunk c o.id).obj_max
    rw [grownKnown_obj_max, grownChunk_obj_max]
  · intro j hj1 hj2
    show nth (grownChunk c o.id).objects j = none
    rw [grownChunk_objects, nth_setNoneFrom, if_pos (by omega)]
  · intro j hj1 hj2
    show nth (grownKnown c kc).objects j = none
    rw [grownKnown_objects, nth_setNoneFrom, if_pos (by omega)]

/-- A minimal full chunk: capacity 1, no usable scan range, so any listing
takes the growth path. -/
def gchunk : chunk :=
  { height := 1, width := 1, objects := [none, none], obj_max := 1,
    mon_max := 1, mon_cnt := 0, mon_current := -1, created_at := 0 }

theorem list_object_growth_lockstep_witness :
    (chunk_wf gchunk ∧ known_wf true gchunk gchunk ∧
      dupScan gchunk.objects 5 1 (gchunk.obj_max - 1) = false ∧
      holeScan true gchunk.objects gchunk.objects 1 (gchunk.obj_max - 1) =
        none) ∧
    (list_object true gchunk gchunk (some ⟨5, 0⟩)).1.obj_max =
      gchunk.obj_max + OBJECT_LIST_INCR :=
  ⟨⟨by decide, by decide, by decide, by decide⟩,
   (list_object_growth_lockstep gchunk gchunk ⟨5, 0⟩ (by decide) (by decide)
     (by decide) (by decide)).1⟩

/-! ### scatter (cave.c lines 284-313)

The externals are parameters: inb models square_in_bounds_fully on the chunk,
dist models distance, losB models los, and sample models the stream of
(rand_spread(y, d), rand_spread(x, d)) pairs drawn by successive iterations
(sample t is the pair drawn on try number t). -/

/-- One sampled location passes the scatter loop's filters: fully in bounds,
not excessively distant (when d > 1), and with line of sight when needed. -/
def scatterAccept (inb : Int → Int → Bool) (dist : Int → Int → Int → Int → Int)
    (losB : Int → Int → Int → Int → Bool) (y x d : Int) (need_los : Bool)
    (p : Int × Int) : Bool :=
  inb p.1 p.2 && !(decide (1 < d) && decide (d < dist y x p.1 p.2)) &&
    (!need_los || losB y x p.1 p.2)

/-- The scatter retry loop: fuel tries remain, idx is the number of tries
already made, last is the most recently sampled location (returned when the
fuel runs out, exactly as the C loop falls through with ny, nx holding the
last sample). -/
def scatterAux (inb : Int → Int → Bool) (dist : Int → Int → Int → Int → Int)
    (losB : Int → Int → Int → Int → Bool) (sample : Nat → Int × Int)
    (y x d : Int) (need_los : Bool) : Nat → Nat → Int × Int → Int × Int
  | 0, _, last => last
  | fuel + 1, idx, _ =>
    if scatterAccept inb dist losB y x d need_los (sample idx) then sample idx
    else scatterAux inb dist losB sample y x d need_los fuel (idx + 1)
      (sample idx)

/-- scatter: standard find-me-a-location function, trying at most 1000000
samples and saving the last sampled location regardless. -/
def scatter (inb : Int → Int → Bool) (dist : Int → Int → Int → Int → Int)
    (losB : Int → Int → Int → Int → Bool) (sample : Nat → Int × Int)
    (y x d : Int) (need_los : Bool) : Int × Int :=
  scatterAux inb dist losB sample y x d need_los 1000000 0 (0, 0)

theorem scatterAux_spec (inb : Int → Int → Bool)
    (dist : Int → Int → Int → Int → Int) (losB : Int → Int → Int → Int → Bool)
    (sample : Nat → Int × Int) (y x d : Int) (need_los : Bool) :
    ∀ (fuel idx : Nat) (last : Int × Int),
      (∃ t, idx ≤ t ∧ t < idx + fuel ∧
        scatterAux inb dist losB sample y x d need_los fuel idx last =
          sample t ∧
        scatterAccept inb dist losB y x d need_los (sample t) = true ∧
        ∀ k, idx ≤ k → k < t →
          scatterAccept inb dist losB y x d need_los (sample k) = false) ∨
      ((∀ k, idx ≤ k → k < idx + fuel →
          scatterAccept inb dist losB y x d need_los (sample k) = false) ∧
        scatterAux inb dist losB sample y x d need_los fuel idx last =
          if fuel = 0 then last else sample (idx + fuel - 1)) := by
  intro fuel
  induction fuel with
  | zero =>
    intro idx last
    right
    exact ⟨fun k h1 h2 => by omega, by simp [scatterAux]⟩
  | succ m ih =>
    intro idx last
    cases haccept : scatterAccept inb dist losB y x d need_los (sample idx) with
    | true =>
      left
      exact ⟨idx, Nat.le_refl _, by omega, by simp [scatterAux, haccept],
        haccept, fun k h1 h2 => by omega⟩
    | false =>
      have hstep : scatterAux inb dist losB sample y x d need_los (m + 1) idx
          last = scatterAux inb dist losB sample y x d need_los m (idx + 1)
          (sample idx) := by
        simp [scatterAux, haccept]
      rcases ih (idx + 1) (sample idx) with ⟨t, h1, h2, h3, h4, h5⟩ | ⟨h1, h2⟩
      · left
        refine ⟨t, by omega, by omega, by rw [hstep]; exact h3, h4,
          fun k hk1 hk2 => ?_⟩
        by_cases hki : k = idx
        · rw [hki]; exact haccept
        · exact h5 k (by omega) hk2
      · right
        refine ⟨fun k hk1 hk2 => ?_, ?_⟩
        · by_cases hki : k = idx
          · rw [hki]; exact haccept
          · exact h1 k (by omega) (by omega)
        · rw [hstep, h2]
          cases m with
          | zero => simp
          | succ p =>
            rw [if_neg (by omega), if_neg (by omega)]
            congr 1
            omega

/-- C7: for every chunk, origin, distance and line-of-sight flag (and every
draw stream), scatter terminates after at most 1000000 sampling attempts
(its result is one of the first 1000000 samples), and when every attempt
fails the acceptance criteria it still returns the last sampled location
(sample number 999999) rather than looping forever or failing. -/
theorem scatter_bounded (inb : Int → Int → Bool)
    (dist : Int → Int → Int → Int → Int) (losB : Int → Int → Int → Int → Bool)
    (sample : Nat → Int × Int) (y x d : Int) (need_los : Bool) :
    (∃ t, t < 1000000 ∧
      scatter inb dist losB sample y x d need_los = sample t) ∧
    ((∀ k, k < 1000000 →
        scatterAccept inb dist losB y x d need_los (sample k) = false) →
      scatter inb dist losB sample y x d need_los = sample 999999) := by
  rcases scatterAux_spec inb dist losB sample y x d need_los 1000000 0 (0, 0)
    with ⟨t, h1, h2, h3, h4, _⟩ | ⟨h1, h2⟩
  · constructor
    · exact ⟨t, by omega, h3⟩
    · intro hall
      rw [hall t (by omega)] at h4
      cases h4
  · constructor
    · exact ⟨999999, by omega, h2⟩
    · intro _
      exact h2

/-- C8: every location scatter returns via a successful (non-exhausted) draw
is fully in bounds, within distance d of the origin whenever d > 1, and has
line of sight to the origin when line of sight is required. -/
theorem scatter_success_properties (inb : Int → Int → Bool)
    (dist : Int → Int → Int → Int → Int) (losB : Int → Int → Int → Int → Bool)
    (sample : Nat → Int × Int) (y x d : Int) (need_los : Bool)
    (hsome : ∃ t, t < 1000000 ∧
      scatterAccept inb dist losB y x d need_los (sample t) = true) :
    inb (scatter inb dist losB sample y x d need_los).1
        (scatter inb dist losB sample y x d need_los).2 = true ∧
    (1 < d → dist y x (scatter inb dist losB sample y x d need_los).1
        (scatter inb dist losB sample y x d need_los).2 ≤ d) ∧
    (need_los = true → losB y x (scatter inb dist losB sample y x d need_los).1
        (scatter inb dist losB sample y x d need_los).2 = true) := by
  rcases scatterAux_spec inb dist losB sample y x d need_los 1000000 0 (0, 0)
    with ⟨t, h1, h2, h3, h4, _⟩ | ⟨h1, h2⟩
  · rw [show scatter inb dist losB sample y x d need_los =
      scatterAux inb dist losB sample y x d need_los 1000000 0 (0, 0) from rfl,
      h3]
    unfold scatterAccept at h4
    rw [Bool.and_eq_true, Bool.and_eq_true] at h4
    obtain ⟨⟨hinb, hdist⟩, hlos⟩ := h4
    refine ⟨hinb, fun hd => ?_, fun hneed => ?_⟩
    · rw [Bool.not_eq_true', Bool.and_eq_false_iff] at hdist
      rcases hdist with h | h
      · rw [decide_eq_false_iff_not] at h
        omega
      · rw [decide_eq_false_iff_not] at h
        omega
    · rw [hneed, Bool.not_true, Bool.false_or] at hlos
      exact hlos
  · obtain ⟨t, ht1, ht2⟩ := hsome
    rw [h1 t (by omega) (by omega)] at ht2
    cases ht2

/-- Trivial oracles for the scatter witnesses. -/
def inbAll : Int → Int → Bool := fun _ _ => true

/-- An in-bounds oracle rejecting everything. -/
def inbNone : Int → Int → Bool := fun _ _ => false

/-- A constant distance oracle. -/
def distZero : Int → Int → Int → Int → Int := fun _ _ _ _ => 0

/-- A line-of-sight oracle accepting everything. -/
def losAll : Int → Int → Int → Int → Bool := fun _ _ _ _ => true

/-- A constant sample stream. -/
def constSample : Nat → Int × Int := fun _ => (3, 4)

theorem scatter_bounded_witness :
    scatter inbNone distZero losAll constSample 0 0 0 false =
      constSample 999999 :=
  (scatter_bounded inbNone distZero losAll constSample 0 0 0 false).2
    (fun _ _ => rfl)

theorem scatter_success_properties_witness :
    (scatterAccept inbAll distZero losAll 0 0 0 false (constSample 0) = true) ∧
    (inbAll (scatter inbAll distZero losAll constSample 0 0 0 false).1
        (scatter inbAll distZero losAll constSample 0 0 0 false).2 = true ∧
    (1 < (0 : Int) →
      distZero 0 0 (scatter inbAll distZero losAll constSample 0 0 0 false).1
        (scatter inbAll distZero losAll constSample 0 0 0 false).2 ≤ 0) ∧
    (false = true →
      losAll 0 0 (scatter inbAll distZero losAll constSample 0 0 0 false).1
        (scatter inbAll distZero losAll constSample 0 0 0 false).2 = true)) :=
  ⟨rfl, scatter_success_properties inbAll distZero losAll constSample 0 0 0
    false ⟨0, by omega, rfl⟩⟩

/-! ### count_feats (cave.c lines 341-378)

The process-wide player position (player->py, player->px) and the
square_in_bounds_fully / square_isknown oracles over the active chunk are
parameters; test models the caller-supplied feature predicate.  The returned
pair is (count, contents of the out-parameters y/x: the last matching
location, none when nothing matched). -/

/-- One iteration of the count_feats loop at direction index d. -/
def count_feats_step (py px : Int) (inb isknown test : Int → Int → Bool)
    (under : Bool) (acc : Nat × Option (Int × Int)) (d : Nat) :
    Nat × Option (Int × Int) :=
  if d == 8 && !under then acc
  else
    let yy := py + ddy_ddd.getD d 0
    let xx := px + ddx_ddd.getD d 0
    if !(inb yy xx) then acc
    else if !(isknown yy xx) then acc
    else if !(test yy xx) then acc
    else (acc.1 + 1, some (yy, xx))

/-- count_feats: number of grid points around (or under) the character that
are in bounds, known, and satisfy the predicate, with the last match. -/
def count_feats (py px : Int) (inb isknown test : Int → Int → Bool)
    (under : Bool) : Nat × Option (Int × Int) :=
  (List.range 9).foldl (count_feats_step py px inb isknown test under) (0, none)

/-- Whether direction index d is counted by count_feats. -/
def cf_hit (py px : Int) (inb isknown test : Int → Int → Bool) (under : Bool)
    (d : Nat) : Bool :=
  !(d == 8 && !under) &&
    (inb (py + ddy_ddd.getD d 0) (px + ddx_ddd.getD d 0) &&
     (isknown (py + ddy_ddd.getD d 0) (px + ddx_ddd.getD d 0) &&
      test (py + ddy_ddd.getD d 0) (px + ddx_ddd.getD d 0)))

/-- The grid point examined at direction index d. -/
def cf_loc (py px : Int) (d : Nat) : Int × Int :=
  (py + ddy_ddd.getD d 0, px + ddx_ddd.getD d 0)

theorem count_feats_step_eq (py px : Int) (inb isknown test : Int → Int → Bool)
    (under : Bool) (acc : Nat × Option (Int × Int)) (d : Nat) :
    count_feats_step py px inb isknown test under acc d =
      if cf_hit py px inb isknown test under d
      then (acc.1 + 1, some (cf_loc py px d)) else acc := by
  simp only [count_feats_step, cf_hit, cf_loc]
  cases hd : (d == 8 && !under) <;>
    cases hinb : inb (py + ddy_ddd.getD d 0) (px + ddx_ddd.getD d 0) <;>
      cases hkn : isknown (py + ddy_ddd.getD d 0) (px + ddx_ddd.getD d 0) <;>
        cases hts : test (py + ddy_ddd.getD d 0) (px + ddx_ddd.getD d 0) <;>
          simp [hd, hinb, hkn, hts]

theorem count_feats_foldl (py px : Int) (inb isknown test : Int → Int → Bool)
    (under : Bool) :
    ∀ (ds : List Nat) (acc : Nat × Option (Int × Int)),
      (ds.foldl (count_feats_step py px inb isknown test under) acc).1 =
        acc.1 + ds.countP (cf_hit py px inb isknown test under) ∧
      (ds.foldl (count_feats_step py px inb isknown test under) acc).2 =
        ((ds.filter (cf_hit py px inb isknown test under)).map
          (fun d => some (cf_loc py px d))).getLastD acc.2 := by
  intro ds
  induction ds with
  | nil => intro acc; exact ⟨by simp, by simp⟩
  | cons a t ih =>
    intro acc
    rw [List.foldl_cons, count_feats_step_eq]
    cases hhit : cf_hit py px inb isknown test under a with
    | true =>
      rw [if_pos rfl]
      obtain ⟨ihc, ihl⟩ := ih (acc.1 + 1, some (cf_loc py px a))
      refine ⟨?_, ?_⟩
      · rw [ihc]
        simp [List.countP_cons, hhit]
        omega
      · rw [ihl, List.filter_cons, if_pos hhit, List.map_cons,
          List.getLastD_cons]
    | false =>
      have hneg : ¬(cf_hit py px inb isknown test under a = true) := by
        simp [hhit]
      rw [if_neg Bool.false_ne_true]
      obtain ⟨ihc, ihl⟩ := ih acc
      refine ⟨?_, ?_⟩
      · rw [ihc]
        simp [List.countP_cons, hhit]
      · rw [ihl, List.filter_cons, if_neg hneg]

/-- C9: count_feats with includeCenter (under) = false returns exactly the
number of the 8 neighbouring cells of the player position that are fully in
bounds, known to the player, and satisfy the predicate — hence at most 8 —
and its out-parameters hold the last matching location; the 8 scanned offsets
are exactly the 8 distinct neighbour offsets. -/
theorem count_feats_spec (py px : Int) (inb isknown test : Int → Int → Bool) :
    (count_feats py px inb isknown test false).1 =
      (List.range 8).countP (fun d =>
        inb (py + ddy_ddd.getD d 0) (px + ddx_ddd.getD d 0) &&
        (isknown (py + ddy_ddd.getD d 0) (px + ddx_ddd.getD d 0) &&
         test (py + ddy_ddd.getD d 0) (px + ddx_ddd.getD d 0))) ∧
    (count_feats py px inb isknown test false).1 ≤ 8 ∧
    (count_feats py px inb isknown test false).2 =
      (((List.range 8).filter (fun d =>
          inb (py + ddy_ddd.getD d 0) (px + ddx_ddd.getD d 0) &&
          (isknown (py + ddy_ddd.getD d 0) (px + ddx_ddd.getD d 0) &&
           test (py + ddy_ddd.getD d 0) (px + ddx_ddd.getD d 0)))).map
        (fun d => some (cf_loc py px d))).getLastD none ∧
    ((List.range 8).map (fun d =>
        ((ddy_ddd.getD d 0, ddx_ddd.getD d 0) : Int × Int))).Perm
      [(-1, -1), (-1, 0), (-1, 1), (0, -1), (0, 1), (1, -1), (1, 0), (1, 1)] := by
  have hrange : List.range 9 = List.range 8 ++ [8] := by decide
  have hsplit := count_feats_foldl py px inb isknown test false
    (List.range 9) (0, none)
  have h8hit : cf_hit py px inb isknown test false 8 = false := by
    unfold cf_hit
    rfl
  have hcongrB : ∀ d ∈ List.range 8,
      cf_hit py px inb isknown test false d =
      (inb (py + ddy_ddd.getD d 0) (px + ddx_ddd.getD d 0) &&
       (isknown (py + ddy_ddd.getD d 0) (px + ddx_ddd.getD d 0) &&
        test (py + ddy_ddd.getD d 0) (px + ddx_ddd.getD d 0))) := by
    intro d hd
    rw [List.mem_range] at hd
    unfold cf_hit
    have h8 : (d == 8) = false := by
      rw [beq_eq_false_iff_ne]
      omega
    rw [h8, Bool.false_and, Bool.not_false, Bool.true_and]
  have h80 : List.countP (cf_hit py px inb isknown test false) [8] = 0 := by
    simp [List.countP_cons, h8hit]
  have hcnt9 : List.countP (cf_hit py px inb isknown test false) (List.range 9) =
      List.countP (fun d =>
        inb (py + ddy_ddd.getD d 0) (px + ddx_ddd.getD d 0) &&
        (isknown (py + ddy_ddd.getD d 0) (px + ddx_ddd.getD d 0) &&
         test (py + ddy_ddd.getD d 0) (px + ddx_ddd.getD d 0)))
        (List.range 8) := by
    rw [hrange, List.countP_append, h80,
      List.countP_congr (fun d hd => by rw [hcongrB d hd])]
    omega
  refine ⟨?_, ?_, ?_, by decide⟩
  · rw [show (count_feats py px inb isknown test false).1 =
      ((List.range 9).foldl (count_feats_step py px inb isknown test false)
        (0, none)).1 from rfl, hsplit.1, hcnt9]
    simp
  · rw [show (count_feats py px inb isknown test false).1 =
      ((List.range 9).foldl (count_feats_step py px inb isknown test false)
        (0, none)).1 from rfl, hsplit.1, hcnt9]
    have hle := List.countP_le_length (fun d =>
        inb (py + ddy_ddd.getD d 0) (px + ddx_ddd.getD d 0) &&
        (isknown (py + ddy_ddd.getD d 0) (px + ddx_ddd.getD d 0) &&
         test (py + ddy_ddd.getD d 0) (px + ddx_ddd.getD d 0)))
      (l := List.range 8)
    rw [List.length_range] at hle
    simp only [Prod.fst]
    omega
  · rw [show (count_feats py px inb isknown test false).2 =
      ((List.range 9).foldl (count_feats_step py px inb isknown test false)
        (0, none)).2 from rfl, hsplit.2, hrange, List.filter_append,
      List.filter_congr hcongrB]
    have h8f : List.filter (cf_hit py px inb isknown test false) [8] = [] := by
      simp [List.filter_cons, h8hit]
    rw [h8f, List.append_nil]

end Angband
